import Mathlib

/-!
Verification of the `rusty-nets` dense-matrix component (`src/matrix.rs`,
`src/utils.rs`) against its natural-language specification.

The Rust code is shallowly embedded: `Matrix<T>` becomes a structure holding
`rows`, `cols` and a flat row-major `data` list; every operation that can
panic in Rust (failed `assert!`, out-of-range `Vec` indexing) returns
`Option`, with `none` standing for the fault.  `for i in 0..n` loops are
embedded as `loopM`, a left-to-right fold over `0, 1, ..., n-1` in the
`Option` monad.
-/

namespace RustyNets

/-- Embeds `struct Matrix<T> { rows: usize, cols: usize, data: Vec<T> }`. -/
structure Matrix (T : Type) where
  rows : Nat
  cols : Nat
  data : List T
deriving DecidableEq

variable {T : Type}

/-- Embeds `Matrix::new(rows, cols)`: a `rows*cols` zero-filled matrix. -/
def Matrix.new (T : Type) [Zero T] (rows cols : Nat) : Matrix T :=
  ⟨rows, cols, List.replicate (rows * cols) 0⟩

/-- Embeds `Matrix::from(rows, cols, data)`: wraps the data unvalidated.
(`from` is a Lean keyword, hence the name `fromVec`.) -/
def Matrix.fromVec (rows cols : Nat) (data : List T) : Matrix T :=
  ⟨rows, cols, data⟩

/-- Embeds `Matrix::index(i, j) = i * self.cols + j`. -/
def Matrix.index (m : Matrix T) (i j : Nat) : Nat :=
  i * m.cols + j

/-- Embeds `Matrix::at(i, j)`: the two bounds asserts, then `Vec` indexing
(whose own out-of-range panic is the `l[k]? = none` case). -/
def Matrix.at' (m : Matrix T) (i j : Nat) : Option T :=
  if i < m.rows then
    if j < m.cols then m.data[m.index i j]?
    else none
  else none

/-- Embeds `Matrix::set(i, j, val)`: the two bounds asserts, then
`self.data[index] = val`, which panics when `index` is out of range. -/
def Matrix.set (m : Matrix T) (i j : Nat) (v : T) : Option (Matrix T) :=
  if i < m.rows then
    if j < m.cols then
      if m.index i j < m.data.length then
        some ⟨m.rows, m.cols, m.data.set (m.index i j) v⟩
      else none
    else none
  else none

/-- `loopM f n a` runs `a` through `f · 0`, `f · 1`, ..., `f · (n-1)` in the
`Option` monad: the embedding of Rust's `for i in 0..n` over fallible bodies. -/
def loopM {α : Type _} (f : α → Nat → Option α) : Nat → α → Option α
  | 0, a => some a
  | n + 1, a => (loopM f n a).bind fun b => f b n

/-- Embeds `Matrix::map(func)`. -/
def Matrix.map [Zero T] (m : Matrix T) (f : T → T) : Option (Matrix T) :=
  loopM (fun acc i =>
      loopM (fun acc2 j =>
          (m.at' i j).bind fun v => acc2.set i j (f v))
        m.cols acc)
    m.rows (Matrix.new T m.rows m.cols)

/-- Embeds `Matrix::map_with(other, func)`: the two `assert_eq!` shape checks,
then the double set loop. -/
def Matrix.mapWith [Zero T] (m other : Matrix T) (f : T → T → T) :
    Option (Matrix T) :=
  if m.rows = other.rows then
    if m.cols = other.cols then
      loopM (fun acc i =>
          loopM (fun acc2 j =>
              (m.at' i j).bind fun x =>
                (other.at' i j).bind fun y => acc2.set i j (f x y))
            m.cols acc)
        m.rows (Matrix.new T m.rows m.cols)
    else none
  else none

/-- Embeds `Matrix::map_with_by_ref(other, func)`; the Rust body is a verbatim
copy of `map_with`'s, and so is this one. -/
def Matrix.mapWithByRef [Zero T] (m other : Matrix T) (f : T → T → T) :
    Option (Matrix T) :=
  if m.rows = other.rows then
    if m.cols = other.cols then
      loopM (fun acc i =>
          loopM (fun acc2 j =>
              (m.at' i j).bind fun x =>
                (other.at' i j).bind fun y => acc2.set i j (f x y))
            m.cols acc)
        m.rows (Matrix.new T m.rows m.cols)
    else none
  else none

/-- Embeds the consuming `ops::Add` impl: `self.map_with(other, |a, b| a + b)`. -/
def Matrix.addVal [Zero T] [Add T] (a b : Matrix T) : Option (Matrix T) :=
  a.mapWith b (fun x y => x + y)

/-- Embeds the borrowing `ops::Add` impl:
`self.map_with_by_ref(other, |a, b| a + b)`. -/
def Matrix.addRef [Zero T] [Add T] (a b : Matrix T) : Option (Matrix T) :=
  a.mapWithByRef b (fun x y => x + y)

/-- Embeds the consuming `ops::Sub` impl. -/
def Matrix.subVal [Zero T] [Sub T] (a b : Matrix T) : Option (Matrix T) :=
  a.mapWith b (fun x y => x - y)

/-- Embeds the borrowing `ops::Sub` impl. -/
def Matrix.subRef [Zero T] [Sub T] (a b : Matrix T) : Option (Matrix T) :=
  a.mapWithByRef b (fun x y => x - y)

/-- Embeds the consuming `ops::Mul` impl: the `assert_eq!(self.cols,
other.rows)` inner-dimension check, then the triple loop.  The accumulator of
the `k` loop starts from `result.at(i, j)`, read off the freshly zeroed
result matrix. -/
def Matrix.mulVal [Zero T] [Add T] [Mul T] (a b : Matrix T) :
    Option (Matrix T) :=
  if a.cols = b.rows then
    loopM (fun acc i =>
        loopM (fun acc2 j =>
            (acc2.at' i j).bind fun v0 =>
              (loopM (fun val k =>
                  (a.at' i k).bind fun x =>
                    (b.at' k j).bind fun y => some (val + x * y))
                a.cols v0).bind fun v =>
                acc2.set i j v)
          b.cols acc)
      a.rows (Matrix.new T a.rows b.cols)
  else none

/-- Embeds the borrowing `ops::Mul` impl; identical to the consuming one
except that the `k`-loop accumulator starts from `num::zero()`. -/
def Matrix.mulRef [Zero T] [Add T] [Mul T] (a b : Matrix T) :
    Option (Matrix T) :=
  if a.cols = b.rows then
    loopM (fun acc i =>
        loopM (fun acc2 j =>
            (loopM (fun val k =>
                (a.at' i k).bind fun x =>
                  (b.at' k j).bind fun y => some (val + x * y))
              a.cols (0 : T)).bind fun v =>
              acc2.set i j v)
          b.cols acc)
      a.rows (Matrix.new T a.rows b.cols)
  else none

/-- Modelled from the spec: the repository's matrix equality (`==`) is not
under `src/` (no `PartialEq` impl appears in `src/matrix.rs`); per the spec it
is the "element-wise comparison of the flattened backing storage". -/
def eqData [DecidableEq T] : List T → List T → Bool
  | [], [] => true
  | x :: xs, y :: ys => if x = y then eqData xs ys else false
  | _, _ => false

/-- Modelled from the spec: the consuming form of matrix equality. -/
def Matrix.eqVal [DecidableEq T] (a b : Matrix T) : Bool :=
  eqData a.data b.data

/-- Modelled from the spec: the borrowing form of matrix equality; the spec
requires both forms to produce identical results. -/
def Matrix.eqRef [DecidableEq T] (a b : Matrix T) : Bool :=
  eqData a.data b.data

/-- Modelled from the spec: `get_integral_square_root` in `src/utils.rs`
computes via `f64` sqrt and `fract`; IEEE-754 floating point is outside this
embedding, so the spec's stated semantics — `Some(r)` with `r * r == val`
exactly when `val` is a perfect square, `None` otherwise — is used here. -/
def get_integral_square_root_spec (val : Nat) : Option Nat :=
  if Nat.sqrt val * Nat.sqrt val = val then some (Nat.sqrt val) else none

/-- Modelled from the spec: the square-literal convenience constructor (a
macro not under `src/`): a flat sequence of perfect-square length `r * r`
becomes an `r × r` matrix, any other length signals absence. -/
def squareFromFlat (data : List T) : Option (Matrix T) :=
  match get_integral_square_root_spec data.length with
  | some r => some ⟨r, r, data⟩
  | none => none

/-- The representation invariant of §3 of the spec. -/
def Matrix.Inv (m : Matrix T) : Prop :=
  m.data.length = m.rows * m.cols

/-- Ghost cell accessor: the value stored at row-major offset `i*cols + j`
(defaulting to `0` out of range); under `Inv` and in bounds this is the value
`at` returns. -/
def Matrix.cell [Zero T] (m : Matrix T) (i j : Nat) : T :=
  m.data.getD (m.index i j) 0

/-! ### Basic facts about `index`, `at'`, `set`, `new` -/

theorem Matrix.index_lt (m : Matrix T) (hm : m.Inv) {i j : Nat}
    (hi : i < m.rows) (hj : j < m.cols) : m.index i j < m.data.length := by
  have h1 : i * m.cols + j < (i + 1) * m.cols := by
    rw [Nat.succ_mul]; omega
  have h2 : (i + 1) * m.cols ≤ m.rows * m.cols :=
    Nat.mul_le_mul_right m.cols hi
  unfold Matrix.Inv at hm
  unfold Matrix.index
  omega

theorem Matrix.at'_eq [Zero T] (m : Matrix T) (hm : m.Inv) {i j : Nat}
    (hi : i < m.rows) (hj : j < m.cols) : m.at' i j = some (m.cell i j) := by
  have hlt := m.index_lt hm hi hj
  unfold Matrix.at' Matrix.cell
  rw [if_pos hi, if_pos hj, List.getElem?_eq_getElem hlt,
    List.getD_eq_getElem?_getD, List.getElem?_eq_getElem hlt]
  rfl

theorem Matrix.set_eq (m : Matrix T) (hm : m.Inv) {i j : Nat}
    (hi : i < m.rows) (hj : j < m.cols) (v : T) :
    m.set i j v = some ⟨m.rows, m.cols, m.data.set (m.index i j) v⟩ := by
  unfold Matrix.set
  rw [if_pos hi, if_pos hj, if_pos (m.index_lt hm hi hj)]

theorem Matrix.set_shape {m m' : Matrix T} {i j : Nat} {v : T}
    (h : m.set i j v = some m') :
    m'.rows = m.rows ∧ m'.cols = m.cols ∧ m'.data.length = m.data.length := by
  unfold Matrix.set at h
  split at h
  · split at h
    · split at h
      · cases h; simp
      · cases h
    · cases h
  · cases h

theorem Matrix.index_ne (m : Matrix T) {i j i' j' : Nat}
    (hj : j < m.cols) (hj' : j' < m.cols) (hne : (i', j') ≠ (i, j)) :
    m.index i' j' ≠ m.index i j := by
  unfold Matrix.index
  rcases Nat.lt_trichotomy i' i with h | h | h
  · have h2 : (i' + 1) * m.cols ≤ i * m.cols := Nat.mul_le_mul_right m.cols h
    rw [Nat.succ_mul] at h2
    omega
  · subst h
    have hj2 : j' ≠ j := by
      intro hji
      exact hne (by rw [hji])
    omega
  · have h2 : (i + 1) * m.cols ≤ i' * m.cols := Nat.mul_le_mul_right m.cols h
    rw [Nat.succ_mul] at h2
    omega

theorem Matrix.cell_set_self [Zero T] (m : Matrix T) (hm : m.Inv) {i j : Nat}
    (hi : i < m.rows) (hj : j < m.cols) (v : T) :
    (Matrix.mk m.rows m.cols (m.data.set (m.index i j) v)).cell i j = v := by
  have hlt : i * m.cols + j < m.data.length := by
    have := m.index_lt hm hi hj
    unfold Matrix.index at this
    exact this
  simp [Matrix.cell, Matrix.index, List.getElem?_set_self hlt]

theorem Matrix.cell_set_ne [Zero T] (m : Matrix T) {i j i' j' : Nat}
    (hj : j < m.cols) (hj' : j' < m.cols) (hne : (i', j') ≠ (i, j)) (v : T) :
    (Matrix.mk m.rows m.cols (m.data.set (m.index i j) v)).cell i' j'
      = m.cell i' j' := by
  have h12 : m.index i j ≠ m.index i' j' := Ne.symm (m.index_ne hj hj' hne)
  unfold Matrix.index at h12
  simp [Matrix.cell, Matrix.index, List.getElem?_set_ne h12]

theorem Matrix.cell_new [Zero T] (R C i j : Nat) :
    (Matrix.new T R C).cell i j = 0 := by
  simp only [Matrix.cell, Matrix.new, Matrix.index, List.getD_eq_getElem?_getD,
    List.getElem?_replicate]
  by_cases h : i * C + j < R * C <;> simp [h]

theorem Matrix.new_rows [Zero T] (R C : Nat) : (Matrix.new T R C).rows = R := rfl

theorem Matrix.new_cols [Zero T] (R C : Nat) : (Matrix.new T R C).cols = C := rfl

theorem Matrix.new_inv [Zero T] (R C : Nat) : (Matrix.new T R C).Inv := by
  simp [Matrix.new, Matrix.Inv]

theorem Matrix.eq_of_cells [Zero T] {a b : Matrix T} (hr : a.rows = b.rows)
    (hc : a.cols = b.cols) (ha : a.Inv) (hb : b.Inv)
    (h : ∀ i j, i < a.rows → j < a.cols → a.cell i j = b.cell i j) : a = b := by
  unfold Matrix.Inv at ha hb
  have hd : a.data = b.data := by
    apply List.ext_getElem
    · rw [ha, hb, hr, hc]
    · intro idx h1 h2
      have hpos : 0 < a.cols := by
        rcases Nat.eq_zero_or_pos a.cols with h0 | h0
        · rw [ha, h0, Nat.mul_zero] at h1; omega
        · exact h0
      have hj : idx % a.cols < a.cols := Nat.mod_lt _ hpos
      have hi : idx / a.cols < a.rows := by
        rw [Nat.div_lt_iff_lt_mul hpos]
        rw [ha] at h1
        omega
      have hcell := h (idx / a.cols) (idx % a.cols) hi hj
      unfold Matrix.cell Matrix.index at hcell
      have hidx : idx / a.cols * a.cols + idx % a.cols = idx := by
        rw [Nat.mul_comm (idx / a.cols) a.cols]
        exact Nat.div_add_mod idx a.cols
      have hidxb : idx / b.cols * b.cols + idx % b.cols = idx := by
        rw [Nat.mul_comm (idx / b.cols) b.cols]
        exact Nat.div_add_mod idx b.cols
      rw [hidx, hc, hidxb] at hcell
      rw [List.getD_eq_getElem?_getD, List.getD_eq_getElem?_getD,
        List.getElem?_eq_getElem h1, List.getElem?_eq_getElem h2] at hcell
      simpa using hcell
  obtain ⟨ar, ac, ad⟩ := a
  obtain ⟨br, bc, bd⟩ := b
  simp_all

/-! ### Loop lemmas -/

theorem loopM_zero {α : Type _} (f : α → Nat → Option α) (a : α) :
    loopM f 0 a = some a := rfl

theorem loopM_succ {α : Type _} (f : α → Nat → Option α) (n : Nat) (a : α) :
    loopM f (n + 1) a = (loopM f n a).bind fun b => f b n := rfl

theorem loopM_inv {α : Type _} (P : Nat → α → Prop) (f : α → Nat → Option α) :
    ∀ (n : Nat) (a : α), P 0 a →
      (∀ i x, i < n → P i x → ∃ y, f x i = some y ∧ P (i + 1) y) →
      ∃ b, loopM f n a = some b ∧ P n b := by
  intro n
  induction n with
  | zero =>
    intro a h0 _
    exact ⟨a, rfl, h0⟩
  | succ n ih =>
    intro a h0 hstep
    obtain ⟨b, hb, hPb⟩ :=
      ih a h0 (fun i x hi hP => hstep i x (Nat.lt_succ_of_lt hi) hP)
    obtain ⟨c, hc, hPc⟩ := hstep n b (Nat.lt_succ_self n) hPb
    refine ⟨c, ?_, hPc⟩
    rw [loopM_succ, hb]
    exact hc

theorem loopM_preserves {α : Type _} (G : α → Prop) (f : α → Nat → Option α)
    (hf : ∀ x i y, f x i = some y → G x → G y) :
    ∀ (n : Nat) (a b : α), loopM f n a = some b → G a → G b := by
  intro n
  induction n with
  | zero =>
    intro a b h hG
    rw [loopM_zero] at h
    cases h
    exact hG
  | succ n ih =>
    intro a b h hG
    rw [loopM_succ] at h
    rcases hx : loopM f n a with _ | x
    · rw [hx] at h
      cases h
    · rw [hx] at h
      exact hf x n b h (ih a x hx hG)

theorem loopM_eq_foldl {α : Type _} (f : α → Nat → Option α) (g : α → Nat → α) :
    ∀ (n : Nat), (∀ v k, k < n → f v k = some (g v k)) →
      ∀ v0 : α, loopM f n v0 = some ((List.range n).foldl g v0) := by
  intro n
  induction n with
  | zero =>
    intro _ v0
    simp [loopM_zero]
  | succ n ih =>
    intro h v0
    rw [loopM_succ, ih (fun v k hk => h v k (Nat.lt_succ_of_lt hk)) v0]
    rw [List.range_succ, List.foldl_append]
    exact h _ n (Nat.lt_succ_self n)

/-- Characterization of the shared double `set` loop: starting from
`Matrix.new T R C`, a body that (on a well-shaped accumulator whose cell
`(i, j)` still holds `0`) sets cell `(i, j)` to `g i j` produces the matrix
whose every cell `(i, j)` is `g i j`. -/
theorem doubleLoop_spec [Zero T] (R C : Nat) (g : Nat → Nat → T)
    (body : Matrix T → Nat → Nat → Option (Matrix T))
    (hbody : ∀ acc i j, i < R → j < C → acc.rows = R → acc.cols = C → acc.Inv →
        acc.cell i j = 0 → body acc i j = acc.set i j (g i j)) :
    ∃ res, loopM (fun acc i => loopM (fun acc2 j => body acc2 i j) C acc) R
        (Matrix.new T R C) = some res ∧
      res.rows = R ∧ res.cols = C ∧ res.Inv ∧
      ∀ i j, i < R → j < C → res.cell i j = g i j := by
  obtain ⟨res, hres, hrowsF, hcolsF, hinvF, hcellsF⟩ := loopM_inv
    (fun i acc => acc.rows = R ∧ acc.cols = C ∧ acc.Inv ∧
      ∀ r s, r < R → s < C → acc.cell r s = if r < i then g r s else 0)
    (fun acc i => loopM (fun acc2 j => body acc2 i j) C acc) R (Matrix.new T R C)
    (by
      refine ⟨rfl, rfl, Matrix.new_inv R C, ?_⟩
      intro r s hr hs
      rw [Matrix.cell_new]
      simp)
    (by
      intro i acc hi hP
      obtain ⟨hrows, hcols, hinv, hcells⟩ := hP
      obtain ⟨acc', hacc', hrows', hcols', hinv', hcells'⟩ := loopM_inv
        (fun j acc2 => acc2.rows = R ∧ acc2.cols = C ∧ acc2.Inv ∧
          ∀ r s, r < R → s < C →
            acc2.cell r s = if r < i ∨ (r = i ∧ s < j) then g r s else 0)
        (fun acc2 j => body acc2 i j) C acc
        (by
          refine ⟨hrows, hcols, hinv, ?_⟩
          intro r s hr hs
          rw [hcells r s hr hs]
          have hiff : (r < i ∨ (r = i ∧ s < 0)) ↔ r < i := by omega
          rw [if_congr hiff rfl rfl])
        (by
          intro j acc2 hj hQ
          obtain ⟨hrows2, hcols2, hinv2, hcells2⟩ := hQ
          have hcell0 : acc2.cell i j = 0 := by
            rw [hcells2 i j hi hj]
            have hneg : ¬(i < i ∨ (i = i ∧ j < j)) := by omega
            rw [if_neg hneg]
          have hi2 : i < acc2.rows := by omega
          have hj2 : j < acc2.cols := by omega
          have hset := acc2.set_eq hinv2 hi2 hj2 (g i j)
          refine ⟨Matrix.mk acc2.rows acc2.cols
            (acc2.data.set (acc2.index i j) (g i j)), ?_, ?_, ?_, ?_, ?_⟩
          · show body acc2 i j = some (Matrix.mk acc2.rows acc2.cols
              (acc2.data.set (acc2.index i j) (g i j)))
            rw [hbody acc2 i j hi hj hrows2 hcols2 hinv2 hcell0, hset]
          · exact hrows2
          · exact hcols2
          · show Matrix.Inv _
            unfold Matrix.Inv
            show (acc2.data.set (acc2.index i j) (g i j)).length
              = acc2.rows * acc2.cols
            rw [List.length_set]
            exact hinv2
          · intro r s hr hs
            have hs2 : s < acc2.cols := by omega
            by_cases hrs : (r, s) = (i, j)
            · rw [Prod.mk.injEq] at hrs
              obtain ⟨hr_eq, hs_eq⟩ := hrs
              subst hr_eq
              subst hs_eq
              rw [acc2.cell_set_self hinv2 hi2 hj2 (g r s)]
              have hpos : r < r ∨ (r = r ∧ s < s + 1) := by omega
              rw [if_pos hpos]
            · rw [acc2.cell_set_ne hj2 hs2 hrs (g i j), hcells2 r s hr hs]
              have hne' : ¬(r = i ∧ s = j) := by
                simpa [Prod.mk.injEq] using hrs
              have hiff : (r < i ∨ (r = i ∧ s < j)) ↔
                  (r < i ∨ (r = i ∧ s < j + 1)) := by omega
              rw [if_congr hiff rfl rfl])
      refine ⟨acc', hacc', hrows', hcols', hinv', ?_⟩
      intro r s hr hs
      rw [hcells' r s hr hs]
      have hiff : (r < i ∨ (r = i ∧ s < C)) ↔ r < i + 1 := by omega
      rw [if_congr hiff rfl rfl])
  refine ⟨res, hres, hrowsF, hcolsF, hinvF, ?_⟩
  intro i j hi hj
  rw [hcellsF i j hi hj, if_pos hi]

/-! ### Characterizations of the operations -/

theorem Matrix.map_spec [Zero T] (m : Matrix T) (f : T → T) (hm : m.Inv) :
    ∃ res, m.map f = some res ∧ res.rows = m.rows ∧ res.cols = m.cols ∧
      res.Inv ∧
      ∀ i j, i < m.rows → j < m.cols → res.cell i j = f (m.cell i j) := by
  have h := doubleLoop_spec m.rows m.cols (fun i j => f (m.cell i j))
    (fun acc2 i j => (m.at' i j).bind fun v => acc2.set i j (f v))
    (by
      intro acc i j hi hj _ _ _ _
      dsimp only
      rw [m.at'_eq hm hi hj]
      rfl)
  exact h

theorem Matrix.mapWith_spec [Zero T] (m other : Matrix T) (f : T → T → T)
    (hm : m.Inv) (ho : other.Inv) (hr : m.rows = other.rows)
    (hc : m.cols = other.cols) :
    ∃ res, m.mapWith other f = some res ∧ m.mapWithByRef other f = some res ∧
      res.rows = m.rows ∧ res.cols = m.cols ∧ res.Inv ∧
      ∀ i j, i < m.rows → j < m.cols →
        res.cell i j = f (m.cell i j) (other.cell i j) := by
  have h := doubleLoop_spec m.rows m.cols
    (fun i j => f (m.cell i j) (other.cell i j))
    (fun acc2 i j => (m.at' i j).bind fun x =>
      (other.at' i j).bind fun y => acc2.set i j (f x y))
    (by
      intro acc i j hi hj _ _ _ _
      dsimp only
      rw [m.at'_eq hm hi hj, other.at'_eq ho (hr ▸ hi) (hc ▸ hj)]
      rfl)
  obtain ⟨res, hloop, h1, h2, h3, h4⟩ := h
  refine ⟨res, ?_, ?_, h1, h2, h3, h4⟩
  · unfold Matrix.mapWith
    rw [if_pos hr, if_pos hc]
    exact hloop
  · unfold Matrix.mapWithByRef
    rw [if_pos hr, if_pos hc]
    exact hloop

theorem mulKLoop_eq [Zero T] [Add T] [Mul T] (a b : Matrix T)
    (ha : a.Inv) (hb : b.Inv) (hdim : a.cols = b.rows) {i j : Nat}
    (hi : i < a.rows) (hj : j < b.cols) (v0 : T) :
    loopM (fun val k => (a.at' i k).bind fun x =>
        (b.at' k j).bind fun y => some (val + x * y)) a.cols v0
      = some ((List.range a.cols).foldl
          (fun acc k => acc + a.cell i k * b.cell k j) v0) := by
  apply loopM_eq_foldl
  intro v k hk
  rw [a.at'_eq ha hi hk, b.at'_eq hb (hdim ▸ hk) hj]
  rfl

theorem Matrix.mulRef_spec [Zero T] [Add T] [Mul T] (a b : Matrix T)
    (ha : a.Inv) (hb : b.Inv) (hdim : a.cols = b.rows) :
    ∃ res, a.mulRef b = some res ∧ res.rows = a.rows ∧ res.cols = b.cols ∧
      res.Inv ∧
      ∀ i j, i < a.rows → j < b.cols →
        res.cell i j = (List.range a.cols).foldl
          (fun acc k => acc + a.cell i k * b.cell k j) 0 := by
  have h := doubleLoop_spec a.rows b.cols
    (fun i j => (List.range a.cols).foldl
      (fun acc k => acc + a.cell i k * b.cell k j) 0)
    (fun acc2 i j => (loopM (fun val k => (a.at' i k).bind fun x =>
        (b.at' k j).bind fun y => some (val + x * y)) a.cols (0 : T)).bind
        fun v => acc2.set i j v)
    (by
      intro acc i j hi hj _ _ _ _
      dsimp only
      rw [mulKLoop_eq a b ha hb hdim hi hj 0]
      rfl)
  obtain ⟨res, hloop, h1, h2, h3, h4⟩ := h
  refine ⟨res, ?_, h1, h2, h3, h4⟩
  unfold Matrix.mulRef
  rw [if_pos hdim]
  exact hloop

theorem Matrix.mulVal_spec [Zero T] [Add T] [Mul T] (a b : Matrix T)
    (ha : a.Inv) (hb : b.Inv) (hdim : a.cols = b.rows) :
    ∃ res, a.mulVal b = some res ∧ res.rows = a.rows ∧ res.cols = b.cols ∧
      res.Inv ∧
      ∀ i j, i < a.rows → j < b.cols →
        res.cell i j = (List.range a.cols).foldl
          (fun acc k => acc + a.cell i k * b.cell k j) 0 := by
  have h := doubleLoop_spec a.rows b.cols
    (fun i j => (List.range a.cols).foldl
      (fun acc k => acc + a.cell i k * b.cell k j) 0)
    (fun acc2 i j => (acc2.at' i j).bind fun v0 =>
      (loopM (fun val k => (a.at' i k).bind fun x =>
        (b.at' k j).bind fun y => some (val + x * y)) a.cols v0).bind
        fun v => acc2.set i j v)
    (by
      intro acc i j hi hj hrows hcols hinv hcell0
      dsimp only
      rw [acc.at'_eq hinv (by omega) (by omega), hcell0]
      simp only [Option.some_bind]
      rw [mulKLoop_eq a b ha hb hdim hi hj 0]
      rfl)
  obtain ⟨res, hloop, h1, h2, h3, h4⟩ := h
  refine ⟨res, ?_, h1, h2, h3, h4⟩
  unfold Matrix.mulVal
  rw [if_pos hdim]
  exact hloop

theorem Matrix.mulVal_eq_mulRef [Zero T] [Add T] [Mul T] (a b : Matrix T)
    (ha : a.Inv) (hb : b.Inv) (hdim : a.cols = b.rows) :
    a.mulVal b = a.mulRef b := by
  obtain ⟨r1, e1, hr1, hc1, hi1, hcell1⟩ := a.mulVal_spec b ha hb hdim
  obtain ⟨r2, e2, hr2, hc2, hi2, hcell2⟩ := a.mulRef_spec b ha hb hdim
  rw [e1, e2]
  congr 1
  apply Matrix.eq_of_cells (by rw [hr1, hr2]) (by rw [hc1, hc2]) hi1 hi2
  intro i j hi hj
  rw [hcell1 i j (by omega) (by omega), hcell2 i j (by omega) (by omega)]

/-! ### Element-wise equality -/

theorem eqData_iff [DecidableEq T] :
    ∀ xs ys : List T, (eqData xs ys = true ↔ xs = ys)
  | [], [] => by simp [eqData]
  | [], _ :: _ => by simp [eqData]
  | _ :: _, [] => by simp [eqData]
  | x :: xs, y :: ys => by
    by_cases h : x = y
    · subst h
      simp only [eqData, if_pos rfl, List.cons.injEq, true_and]
      exact eqData_iff xs ys
    · simp [eqData, if_neg h, h]

/-! ### Shape preservation, for the reachability invariant -/

theorem loop2_shape [Zero T] (R C : Nat)
    (body : Matrix T → Nat → Nat → Option (Matrix T))
    (hbody : ∀ acc i j acc', body acc i j = some acc' →
      acc'.rows = acc.rows ∧ acc'.cols = acc.cols ∧
      acc'.data.length = acc.data.length)
    (res : Matrix T)
    (h : loopM (fun acc i => loopM (fun acc2 j => body acc2 i j) C acc) R
        (Matrix.new T R C) = some res) : res.Inv := by
  have hG := loopM_preserves
    (fun x => x.rows = R ∧ x.cols = C ∧ x.data.length = R * C)
    (fun acc i => loopM (fun acc2 j => body acc2 i j) C acc)
    (by
      intro x i y hy hGx
      refine loopM_preserves
        (fun z => z.rows = R ∧ z.cols = C ∧ z.data.length = R * C)
        (fun acc2 j => body acc2 i j) ?_ C x y hy hGx
      intro u jj w hw hGu
      obtain ⟨h1, h2, h3⟩ := hbody u i jj w hw
      exact ⟨h1.trans hGu.1, h2.trans hGu.2.1, h3.trans hGu.2.2⟩)
    R (Matrix.new T R C) res h ⟨rfl, rfl, by simp [Matrix.new]⟩
  unfold Matrix.Inv
  rw [hG.1, hG.2.1, hG.2.2]

theorem Matrix.map_some_inv [Zero T] {m res : Matrix T} {f : T → T}
    (h : m.map f = some res) : res.Inv := by
  unfold Matrix.map at h
  refine loop2_shape m.rows m.cols
    (fun acc2 i j => (m.at' i j).bind fun v => acc2.set i j (f v)) ?_ res h
  intro acc i j acc' hacc'
  rw [Option.bind_eq_some] at hacc'
  obtain ⟨v, _, hacc'⟩ := hacc'
  exact Matrix.set_shape hacc'

theorem Matrix.mapWith_some_inv [Zero T] {m o res : Matrix T} {f : T → T → T}
    (h : m.mapWith o f = some res) : res.Inv := by
  unfold Matrix.mapWith at h
  split at h
  · split at h
    · refine loop2_shape m.rows m.cols
        (fun acc2 i j => (m.at' i j).bind fun x =>
          (o.at' i j).bind fun y => acc2.set i j (f x y)) ?_ res h
      intro acc i j acc' hacc'
      rw [Option.bind_eq_some] at hacc'
      obtain ⟨x, _, hacc'⟩ := hacc'
      rw [Option.bind_eq_some] at hacc'
      obtain ⟨y, _, hacc'⟩ := hacc'
      exact Matrix.set_shape hacc'
    · cases h
  · cases h

theorem Matrix.mapWithByRef_some_inv [Zero T] {m o res : Matrix T}
    {f : T → T → T} (h : m.mapWithByRef o f = some res) : res.Inv := by
  unfold Matrix.mapWithByRef at h
  split at h
  · split at h
    · refine loop2_shape m.rows m.cols
        (fun acc2 i j => (m.at' i j).bind fun x =>
          (o.at' i j).bind fun y => acc2.set i j (f x y)) ?_ res h
      intro acc i j acc' hacc'
      rw [Option.bind_eq_some] at hacc'
      obtain ⟨x, _, hacc'⟩ := hacc'
      rw [Option.bind_eq_some] at hacc'
      obtain ⟨y, _, hacc'⟩ := hacc'
      exact Matrix.set_shape hacc'
    · cases h
  · cases h

theorem Matrix.mulVal_some_inv [Zero T] [Add T] [Mul T] {a b res : Matrix T}
    (h : a.mulVal b = some res) : res.Inv := by
  unfold Matrix.mulVal at h
  split at h
  · refine loop2_shape a.rows b.cols
      (fun acc2 i j => (acc2.at' i j).bind fun v0 =>
        (loopM (fun val k => (a.at' i k).bind fun x =>
          (b.at' k j).bind fun y => some (val + x * y)) a.cols v0).bind
          fun v => acc2.set i j v) ?_ res h
    intro acc i j acc' hacc'
    rw [Option.bind_eq_some] at hacc'
    obtain ⟨v0, _, hacc'⟩ := hacc'
    rw [Option.bind_eq_some] at hacc'
    obtain ⟨v, _, hacc'⟩ := hacc'
    exact Matrix.set_shape hacc'
  · cases h

theorem Matrix.mulRef_some_inv [Zero T] [Add T] [Mul T] {a b res : Matrix T}
    (h : a.mulRef b = some res) : res.Inv := by
  unfold Matrix.mulRef at h
  split at h
  · refine loop2_shape a.rows b.cols
      (fun acc2 i j => (loopM (fun val k => (a.at' i k).bind fun x =>
          (b.at' k j).bind fun y => some (val + x * y)) a.cols (0 : T)).bind
          fun v => acc2.set i j v) ?_ res h
    intro acc i j acc' hacc'
    rw [Option.bind_eq_some] at hacc'
    obtain ⟨v, _, hacc'⟩ := hacc'
    exact Matrix.set_shape hacc'
  · cases h

/-- Matrices reachable through the public constructors and the subsequent
operations, with `from` restricted to length-respecting data (the restriction
the counterexample to C4 forces). -/
inductive Reachable {T : Type} [Zero T] [Add T] [Sub T] [Mul T] :
    Matrix T → Prop
  | new (rows cols : Nat) : Reachable (Matrix.new T rows cols)
  | fromVec (rows cols : Nat) (data : List T)
      (h : data.length = rows * cols) :
      Reachable (Matrix.fromVec rows cols data)
  | set (m m' : Matrix T) (i j : Nat) (v : T) : Reachable m →
      m.set i j v = some m' → Reachable m'
  | map (m m' : Matrix T) (f : T → T) : Reachable m →
      m.map f = some m' → Reachable m'
  | mapWith (m o m' : Matrix T) (f : T → T → T) : Reachable m → Reachable o →
      m.mapWith o f = some m' → Reachable m'
  | mapWithByRef (m o m' : Matrix T) (f : T → T → T) : Reachable m →
      Reachable o → m.mapWithByRef o f = some m' → Reachable m'
  | addVal (m o m' : Matrix T) : Reachable m → Reachable o →
      m.addVal o = some m' → Reachable m'
  | addRef (m o m' : Matrix T) : Reachable m → Reachable o →
      m.addRef o = some m' → Reachable m'
  | subVal (m o m' : Matrix T) : Reachable m → Reachable o →
      m.subVal o = some m' → Reachable m'
  | subRef (m o m' : Matrix T) : Reachable m → Reachable o →
      m.subRef o = some m' → Reachable m'
  | mulVal (m o m' : Matrix T) : Reachable m → Reachable o →
      m.mulVal o = some m' → Reachable m'
  | mulRef (m o m' : Matrix T) : Reachable m → Reachable o →
      m.mulRef o = some m' → Reachable m'

theorem Reachable.inv [Zero T] [Add T] [Sub T] [Mul T] {m : Matrix T}
    (h : Reachable m) : m.Inv := by
  induction h with
  | new rows cols => exact Matrix.new_inv rows cols
  | fromVec rows cols data h => exact h
  | set m m' i j v _ hset ih =>
    obtain ⟨h1, h2, h3⟩ := Matrix.set_shape hset
    unfold Matrix.Inv at ih ⊢
    rw [h1, h2, h3, ih]
  | map m m' f _ hmap _ => exact Matrix.map_some_inv hmap
  | mapWith m o m' f _ _ hop _ _ => exact Matrix.mapWith_some_inv hop
  | mapWithByRef m o m' f _ _ hop _ _ => exact Matrix.mapWithByRef_some_inv hop
  | addVal m o m' _ _ hop _ _ => exact Matrix.mapWith_some_inv hop
  | addRef m o m' _ _ hop _ _ => exact Matrix.mapWithByRef_some_inv hop
  | subVal m o m' _ _ hop _ _ => exact Matrix.mapWith_some_inv hop
  | subRef m o m' _ _ hop _ _ => exact Matrix.mapWithByRef_some_inv hop
  | mulVal m o m' _ _ hop _ _ => exact Matrix.mulVal_some_inv hop
  | mulRef m o m' _ _ hop _ _ => exact Matrix.mulRef_some_inv hop

/-! ### Fault cases -/

theorem Matrix.mapWith_none [Zero T] (m o : Matrix T) (f : T → T → T)
    (h : ¬(m.rows = o.rows ∧ m.cols = o.cols)) : m.mapWith o f = none := by
  unfold Matrix.mapWith
  by_cases h1 : m.rows = o.rows
  · by_cases h2 : m.cols = o.cols
    · exact absurd ⟨h1, h2⟩ h
    · rw [if_pos h1, if_neg h2]
  · rw [if_neg h1]

theorem Matrix.mapWithByRef_none [Zero T] (m o : Matrix T) (f : T → T → T)
    (h : ¬(m.rows = o.rows ∧ m.cols = o.cols)) : m.mapWithByRef o f = none := by
  unfold Matrix.mapWithByRef
  by_cases h1 : m.rows = o.rows
  · by_cases h2 : m.cols = o.cols
    · exact absurd ⟨h1, h2⟩ h
    · rw [if_pos h1, if_neg h2]
  · rw [if_neg h1]

theorem Matrix.mulVal_none [Zero T] [Add T] [Mul T] (a b : Matrix T)
    (h : a.cols ≠ b.rows) : a.mulVal b = none := by
  unfold Matrix.mulVal
  rw [if_neg h]

theorem Matrix.mulRef_none [Zero T] [Add T] [Mul T] (a b : Matrix T)
    (h : a.cols ≠ b.rows) : a.mulRef b = none := by
  unfold Matrix.mulRef
  rw [if_neg h]

/-! ### Claims -/

/-- C1: matrix multiplication (both the consuming and the borrowing form)
requires `self.cols == other.rows` and faults otherwise; under that
precondition it returns a matrix of shape `(self.rows, other.cols)` whose
cell `(i, j)` is the sum over `k < self.cols` of `self.at(i,k) * other.at(k,j)`
accumulated from the additive identity; concretely
`[[3,4,5],[1,6,8]] * [[6,2],[9,0],[3,1]] = [[69,11],[84,10]]`. -/
theorem C1_matmul :
    (∀ (T : Type) [Zero T] [Add T] [Mul T] (a b : Matrix T),
      a.cols ≠ b.rows → a.mulVal b = none ∧ a.mulRef b = none) ∧
    (∀ (T : Type) [Zero T] [Add T] [Mul T] (a b : Matrix T),
      a.Inv → b.Inv → a.cols = b.rows →
      ∃ res, a.mulVal b = some res ∧ a.mulRef b = some res ∧
        res.rows = a.rows ∧ res.cols = b.cols ∧
        ∀ i j, i < a.rows → j < b.cols →
          res.cell i j = (List.range a.cols).foldl
            (fun acc k => acc + a.cell i k * b.cell k j) 0) ∧
    (Matrix.fromVec 2 3 [(3 : Int), 4, 5, 1, 6, 8]).mulVal
        (Matrix.fromVec 3 2 [6, 2, 9, 0, 3, 1])
      = some (Matrix.fromVec 2 2 [69, 11, 84, 10]) ∧
    (Matrix.fromVec 2 3 [(3 : Int), 4, 5, 1, 6, 8]).mulRef
        (Matrix.fromVec 3 2 [6, 2, 9, 0, 3, 1])
      = some (Matrix.fromVec 2 2 [69, 11, 84, 10]) := by
  refine ⟨?_, ?_, rfl, rfl⟩
  · intro T _ _ _ a b h
    exact ⟨a.mulVal_none b h, a.mulRef_none b h⟩
  · intro T _ _ _ a b ha hb hdim
    obtain ⟨res, e2, hr, hc, _, hcell⟩ := a.mulRef_spec b ha hb hdim
    exact ⟨res, (a.mulVal_eq_mulRef b ha hb hdim).trans e2, e2, hr, hc, hcell⟩

/-- Witness for C1 at concrete inputs: a 1×2 by 1×1 mismatch faults, and the
2×3 by 3×2 product satisfies the characterization. -/
theorem C1_matmul_witness :
    ((Matrix.fromVec 1 2 [(1 : Int), 2]).mulVal (Matrix.fromVec 1 1 [3]) = none ∧
      (Matrix.fromVec 1 2 [(1 : Int), 2]).mulRef (Matrix.fromVec 1 1 [3]) = none) ∧
    ∃ res, (Matrix.fromVec 2 3 [(3 : Int), 4, 5, 1, 6, 8]).mulVal
        (Matrix.fromVec 3 2 [6, 2, 9, 0, 3, 1]) = some res ∧
      (Matrix.fromVec 2 3 [(3 : Int), 4, 5, 1, 6, 8]).mulRef
        (Matrix.fromVec 3 2 [6, 2, 9, 0, 3, 1]) = some res ∧
      res.rows = 2 ∧ res.cols = 2 ∧
      ∀ i j, i < 2 → j < 2 →
        res.cell i j = (List.range 3).foldl
          (fun acc k =>
            acc + (Matrix.fromVec 2 3 [(3 : Int), 4, 5, 1, 6, 8]).cell i k *
              (Matrix.fromVec 3 2 [6, 2, 9, 0, 3, 1]).cell k j) 0 :=
  ⟨C1_matmul.1 Int (Matrix.fromVec 1 2 [(1 : Int), 2])
      (Matrix.fromVec 1 1 [3]) (by decide),
    C1_matmul.2.1 Int (Matrix.fromVec 2 3 [(3 : Int), 4, 5, 1, 6, 8])
      (Matrix.fromVec 3 2 [6, 2, 9, 0, 3, 1]) rfl rfl rfl⟩

/-- C2: each of the four algebraic operators (addition, subtraction,
multiplication, equality) is provided in a consuming and a borrowing form,
and on every pair of operands satisfying the operator's precondition the two
forms produce identical results. -/
theorem C2_dual_forms :
    (∀ (T : Type) [Zero T] (a b : Matrix T) (f : T → T → T),
      a.mapWith b f = a.mapWithByRef b f) ∧
    (∀ (T : Type) [Zero T] [Add T] (a b : Matrix T), a.addVal b = a.addRef b) ∧
    (∀ (T : Type) [Zero T] [Sub T] (a b : Matrix T), a.subVal b = a.subRef b) ∧
    (∀ (T : Type) [Zero T] [Add T] [Mul T] (a b : Matrix T),
      a.Inv → b.Inv → a.cols = b.rows → a.mulVal b = a.mulRef b) ∧
    (∀ (T : Type) [DecidableEq T] (a b : Matrix T), a.eqVal b = a.eqRef b) := by
  refine ⟨?_, ?_, ?_, ?_, ?_⟩
  · intro T _ a b f
    rfl
  · intro T _ _ a b
    rfl
  · intro T _ _ a b
    rfl
  · intro T _ _ _ a b ha hb hdim
    exact a.mulVal_eq_mulRef b ha hb hdim
  · intro T _ a b
    rfl

/-- Witness for C2 at concrete inputs: both multiplication forms agree on the
2×3 by 3×2 example. -/
theorem C2_dual_forms_witness :
    (Matrix.fromVec 2 3 [(3 : Int), 4, 5, 1, 6, 8]).mulVal
        (Matrix.fromVec 3 2 [6, 2, 9, 0, 3, 1])
      = (Matrix.fromVec 2 3 [(3 : Int), 4, 5, 1, 6, 8]).mulRef
        (Matrix.fromVec 3 2 [6, 2, 9, 0, 3, 1]) :=
  C2_dual_forms.2.2.2.1 Int (Matrix.fromVec 2 3 [(3 : Int), 4, 5, 1, 6, 8])
    (Matrix.fromVec 3 2 [6, 2, 9, 0, 3, 1]) rfl rfl rfl

/-- C3: matrix equality (spec-modelled: its `PartialEq` impl is not under
`src/`) is defined and holds exactly when the element-wise comparison of the
flattened backing storage in row-major order succeeds, i.e. exactly when the
flat data lists are equal. -/
theorem C3_equality :
    ∀ (T : Type) [DecidableEq T] (a b : Matrix T),
      (a.eqVal b = true ↔ a.data = b.data) ∧
      (a.eqRef b = true ↔ a.data = b.data) := by
  intro T _ a b
  exact ⟨eqData_iff a.data b.data, eqData_iff a.data b.data⟩

/-- C4 counterexample: `from` is a public constructor and validates nothing,
so the claim "the invariant holds for every matrix reachable through the
public constructors" fails: `from(2, 2, [1, 2, 3])` is reachable and violates
`data.length == rows * cols`. -/
theorem C4_cex : ¬ (Matrix.fromVec 2 2 [(1 : Int), 2, 3]).Inv := by
  unfold Matrix.Inv
  decide

/-- C4 (amended): every matrix reachable through `new`, through `from` applied
to data whose length equals `rows * cols`, and through any chain of the
subsequent operations (`set`, `map`, `map_with`, `map_with_by_ref`, both
addition, subtraction and multiplication forms) satisfies
`data.length == rows * cols`. -/
theorem C4_invariant :
    ∀ (T : Type) [Zero T] [Add T] [Sub T] [Mul T] (m : Matrix T),
      Reachable m → m.Inv := by
  intro T _ _ _ _ m h
  exact h.inv

/-- Witness for C4 at a concrete reachable matrix. -/
theorem C4_invariant_witness : (Matrix.new Int 2 3).Inv :=
  C4_invariant Int (Matrix.new Int 2 3) (Reachable.new 2 3)

/-- C5: shape mismatches fault with no partial result: `map_with` (both
forms), addition and subtraction fault on unequal shapes, and multiplication
faults when `self.cols != other.rows`; in every case the operation returns
`none`, so no partial or corrupted matrix is observable. -/
theorem C5_mismatch_faults :
    (∀ (T : Type) [Zero T] (a b : Matrix T) (f : T → T → T),
      ¬(a.rows = b.rows ∧ a.cols = b.cols) →
      a.mapWith b f = none ∧ a.mapWithByRef b f = none) ∧
    (∀ (T : Type) [Zero T] [Add T] (a b : Matrix T),
      ¬(a.rows = b.rows ∧ a.cols = b.cols) →
      a.addVal b = none ∧ a.addRef b = none) ∧
    (∀ (T : Type) [Zero T] [Sub T] (a b : Matrix T),
      ¬(a.rows = b.rows ∧ a.cols = b.cols) →
      a.subVal b = none ∧ a.subRef b = none) ∧
    (∀ (T : Type) [Zero T] [Add T] [Mul T] (a b : Matrix T),
      a.cols ≠ b.rows → a.mulVal b = none ∧ a.mulRef b = none) := by
  refine ⟨?_, ?_, ?_, ?_⟩
  · intro T _ a b f h
    exact ⟨a.mapWith_none b f h, a.mapWithByRef_none b f h⟩
  · intro T _ _ a b h
    exact ⟨a.mapWith_none b _ h, a.mapWithByRef_none b _ h⟩
  · intro T _ _ a b h
    exact ⟨a.mapWith_none b _ h, a.mapWithByRef_none b _ h⟩
  · intro T _ _ _ a b h
    exact ⟨a.mulVal_none b h, a.mulRef_none b h⟩

/-- Witness for C5 at concrete mismatched shapes. -/
theorem C5_mismatch_faults_witness :
    ((Matrix.fromVec 1 2 [(1 : Int), 2]).mapWith
        (Matrix.fromVec 2 1 [3, 4]) (fun x y => x + y) = none ∧
      (Matrix.fromVec 1 2 [(1 : Int), 2]).mapWithByRef
        (Matrix.fromVec 2 1 [3, 4]) (fun x y => x + y) = none) ∧
    ((Matrix.fromVec 1 2 [(1 : Int), 2]).addVal
        (Matrix.fromVec 2 1 [3, 4]) = none ∧
      (Matrix.fromVec 1 2 [(1 : Int), 2]).addRef
        (Matrix.fromVec 2 1 [3, 4]) = none) ∧
    ((Matrix.fromVec 1 2 [(1 : Int), 2]).subVal
        (Matrix.fromVec 2 1 [3, 4]) = none ∧
      (Matrix.fromVec 1 2 [(1 : Int), 2]).subRef
        (Matrix.fromVec 2 1 [3, 4]) = none) ∧
    ((Matrix.fromVec 1 2 [(1 : Int), 2]).mulVal
        (Matrix.fromVec 1 1 [3]) = none ∧
      (Matrix.fromVec 1 2 [(1 : Int), 2]).mulRef
        (Matrix.fromVec 1 1 [3]) = none) :=
  ⟨C5_mismatch_faults.1 Int (Matrix.fromVec 1 2 [(1 : Int), 2])
      (Matrix.fromVec 2 1 [3, 4]) (fun x y => x + y) (by decide),
    C5_mismatch_faults.2.1 Int (Matrix.fromVec 1 2 [(1 : Int), 2])
      (Matrix.fromVec 2 1 [3, 4]) (by decide),
    C5_mismatch_faults.2.2.1 Int (Matrix.fromVec 1 2 [(1 : Int), 2])
      (Matrix.fromVec 2 1 [3, 4]) (by decide),
    C5_mismatch_faults.2.2.2 Int (Matrix.fromVec 1 2 [(1 : Int), 2])
      (Matrix.fromVec 1 1 [3]) (by decide)⟩

/-- C6: under the invariant, for in-bounds `(i, j)`, `set(i, j, v)` succeeds,
a subsequent `at(i, j)` returns exactly `v`, and every other in-bounds cell
reads the same value as before the `set`. -/
theorem C6_set_at_frame :
    ∀ (T : Type) [Zero T] (m : Matrix T) (i j : Nat) (v : T),
      m.Inv → i < m.rows → j < m.cols →
      ∃ m', m.set i j v = some m' ∧ m'.at' i j = some v ∧
        ∀ i' j', i' < m.rows → j' < m.cols → (i', j') ≠ (i, j) →
          m'.at' i' j' = m.at' i' j' := by
  intro T _ m i j v hm hi hj
  have hset := m.set_eq hm hi hj v
  have hinv' : (Matrix.mk m.rows m.cols (m.data.set (m.index i j) v)).Inv := by
    unfold Matrix.Inv at hm ⊢
    show (m.data.set (m.index i j) v).length = m.rows * m.cols
    rw [List.length_set]
    exact hm
  refine ⟨Matrix.mk m.rows m.cols (m.data.set (m.index i j) v), hset, ?_, ?_⟩
  · rw [(Matrix.mk m.rows m.cols
      (m.data.set (m.index i j) v)).at'_eq hinv' hi hj]
    rw [m.cell_set_self hm hi hj v]
  · intro i' j' hi' hj' hne
    rw [(Matrix.mk m.rows m.cols
      (m.data.set (m.index i j) v)).at'_eq hinv' hi' hj']
    rw [m.cell_set_ne hj hj' hne v, m.at'_eq hm hi' hj']

/-- Witness for C6 at a concrete matrix, position and value. -/
theorem C6_set_at_frame_witness :
    ∃ m', (Matrix.fromVec 2 2 [(10 : Int), 20, 30, 40]).set 0 1 7 = some m' ∧
      m'.at' 0 1 = some 7 ∧
      ∀ i' j', i' < 2 → j' < 2 → (i', j') ≠ (0, 1) →
        m'.at' i' j' = (Matrix.fromVec 2 2 [(10 : Int), 20, 30, 40]).at' i' j' :=
  C6_set_at_frame Int (Matrix.fromVec 2 2 [(10 : Int), 20, 30, 40]) 0 1 7
    rfl (by decide) (by decide)

/-- C7: the map composition law: `M.map(f).map(g)` equals
`M.map(x => g(f(x)))` for every matrix satisfying the invariant. -/
theorem C7_map_comp :
    ∀ (T : Type) [Zero T] (m : Matrix T) (f g : T → T), m.Inv →
      (m.map f).bind (fun r => r.map g) = m.map (fun x => g (f x)) := by
  intro T _ m f g hm
  obtain ⟨r1, e1, hr1, hc1, hinv1, hcell1⟩ := m.map_spec f hm
  obtain ⟨r2, e2, hr2, hc2, hinv2, hcell2⟩ := r1.map_spec g hinv1
  obtain ⟨r3, e3, hr3, hc3, hinv3, hcell3⟩ := m.map_spec (fun x => g (f x)) hm
  rw [e1, Option.some_bind, e2, e3]
  congr 1
  apply Matrix.eq_of_cells (by omega) (by omega) hinv2 hinv3
  intro i j hi hj
  rw [hcell2 i j (by omega) (by omega), hcell1 i j (by omega) (by omega),
    hcell3 i j (by omega) (by omega)]

/-- Witness for C7 at a concrete matrix and functions. -/
theorem C7_map_comp_witness :
    ((Matrix.fromVec 2 2 [(1 : Int), 2, 3, 4]).map (fun x => x + 1)).bind
        (fun r => r.map (fun x => x * 2))
      = (Matrix.fromVec 2 2 [(1 : Int), 2, 3, 4]).map
          (fun x => (x + 1) * 2) :=
  C7_map_comp Int (Matrix.fromVec 2 2 [(1 : Int), 2, 3, 4])
    (fun x => x + 1) (fun x => x * 2) rfl

theorem sqrt_four : Nat.sqrt 4 = 2 := by norm_num

theorem sqrt_five : Nat.sqrt 5 = 2 := by norm_num

theorem sqrt_big : Nat.sqrt 18014398509481985 = 134217728 := by norm_num

/-- C8: the exact semantics the spec assigns to the square-literal helper and
`get_integral_square_root`: length 4 infers a 2×2 matrix, length 5 signals
absence, and `Some r` with `r * r == val` is returned exactly for perfect
squares.  (The `f64`-based code in `src/utils.rs` deviates from this at
`val = 2^54 + 1 = 18014398509481985`, where the cast to `f64` rounds to
`2^54` and the code returns `Some(2^27)`; the final two conjuncts show the
claimed/intended answer there is `None`.) -/
theorem C8_square_literal :
    get_integral_square_root_spec 4 = some 2 ∧
    get_integral_square_root_spec 5 = none ∧
    (∃ msq, squareFromFlat [(1 : Int), 2, 3, 4] = some msq ∧
      msq.rows = 2 ∧ msq.cols = 2) ∧
    squareFromFlat [(1 : Int), 2, 3, 4, 5] = none ∧
    (∀ val r : Nat, get_integral_square_root_spec val = some r →
      r * r = val) ∧
    (∀ val : Nat, (∃ r : Nat, r * r = val) →
      ∃ r : Nat, get_integral_square_root_spec val = some r ∧ r * r = val) ∧
    get_integral_square_root_spec 18014398509481985 = none ∧
    (∀ r : Nat, r * r ≠ 18014398509481985) := by
  have h4 : get_integral_square_root_spec 4 = some 2 := by
    unfold get_integral_square_root_spec
    rw [sqrt_four, if_pos (by norm_num : (2 : Nat) * 2 = 4)]
  have h5 : get_integral_square_root_spec 5 = none := by
    unfold get_integral_square_root_spec
    rw [sqrt_five, if_neg (by norm_num : ¬((2 : Nat) * 2 = 5))]
  have hsq4 : squareFromFlat [(1 : Int), 2, 3, 4]
      = some (Matrix.mk 2 2 [(1 : Int), 2, 3, 4]) := by
    unfold squareFromFlat
    have hlen : ([(1 : Int), 2, 3, 4] : List Int).length = 4 := rfl
    rw [hlen, h4]
  have hsq5 : squareFromFlat [(1 : Int), 2, 3, 4, 5] = none := by
    unfold squareFromFlat
    have hlen : ([(1 : Int), 2, 3, 4, 5] : List Int).length = 5 := rfl
    rw [hlen, h5]
  have hsound : ∀ val r : Nat, get_integral_square_root_spec val = some r →
      r * r = val := by
    intro val r h
    unfold get_integral_square_root_spec at h
    split at h
    · rename_i hguard
      cases h
      exact hguard
    · cases h
  have hcomp : ∀ val : Nat, (∃ r : Nat, r * r = val) →
      ∃ r : Nat, get_integral_square_root_spec val = some r ∧ r * r = val := by
    intro val hex
    have hg : Nat.sqrt val * Nat.sqrt val = val :=
      (Nat.exists_mul_self val).mp hex
    refine ⟨Nat.sqrt val, ?_, hg⟩
    unfold get_integral_square_root_spec
    rw [if_pos hg]
  have hbig : get_integral_square_root_spec 18014398509481985 = none := by
    unfold get_integral_square_root_spec
    rw [sqrt_big,
      if_neg (by norm_num :
        ¬((134217728 : Nat) * 134217728 = 18014398509481985))]
  have hnotsq : ∀ r : Nat, r * r ≠ 18014398509481985 := by
    intro r h
    rcases le_or_lt r 134217728 with h1 | h1
    · have h2 : r * r ≤ 134217728 * 134217728 := Nat.mul_le_mul h1 h1
      have h3 : (134217728 : Nat) * 134217728 = 18014398509481984 := by
        norm_num
      omega
    · have h2 : 134217729 * 134217729 ≤ r * r := Nat.mul_le_mul h1 h1
      have h3 : (134217729 : Nat) * 134217729 = 18014398777917441 := by
        norm_num
      omega
  exact ⟨h4, h5, ⟨Matrix.mk 2 2 [(1 : Int), 2, 3, 4], hsq4, rfl, rfl⟩,
    hsq5, hsound, hcomp, hbig, hnotsq⟩

/-- Witness for C8: the perfect square 81 is accepted with root 9. -/
theorem C8_square_literal_witness :
    ∃ r : Nat, get_integral_square_root_spec 81 = some r ∧ r * r = 81 :=
  C8_square_literal.2.2.2.2.2.1 81 ⟨9, by norm_num⟩

/-- C9: under the invariant, in-bounds `at` and `set` never fault: the bounds
asserts pass, the flat offset `i*cols + j` is strictly below `data.length`,
and both operations return `some`. -/
theorem C9_inbounds_safe :
    ∀ (T : Type) [Zero T] (m : Matrix T) (i j : Nat),
      m.Inv → i < m.rows → j < m.cols →
      m.index i j < m.data.length ∧ m.at' i j = some (m.cell i j) ∧
      ∀ v : T, m.set i j v
        = some (Matrix.mk m.rows m.cols (m.data.set (m.index i j) v)) := by
  intro T _ m i j hm hi hj
  exact ⟨m.index_lt hm hi hj, m.at'_eq hm hi hj, fun v => m.set_eq hm hi hj v⟩

/-- Witness for C9 at a concrete matrix and position. -/
theorem C9_inbounds_safe_witness :
    (Matrix.fromVec 2 2 [(10 : Int), 20, 30, 40]).index 1 0
        < (Matrix.fromVec 2 2 [(10 : Int), 20, 30, 40]).data.length ∧
      (Matrix.fromVec 2 2 [(10 : Int), 20, 30, 40]).at' 1 0
        = some ((Matrix.fromVec 2 2 [(10 : Int), 20, 30, 40]).cell 1 0) ∧
      ∀ v : Int, (Matrix.fromVec 2 2 [(10 : Int), 20, 30, 40]).set 1 0 v
        = some (Matrix.mk 2 2 ([(10 : Int), 20, 30, 40].set 2 v)) :=
  C9_inbounds_safe Int (Matrix.fromVec 2 2 [(10 : Int), 20, 30, 40]) 1 0
    rfl (by decide) (by decide)

/-- C10: multiplying an (m×0) matrix by a (0×p) matrix does not fault and
yields an (m×p) matrix every cell of which is the additive identity, in both
operator forms (the inner accumulation loop is empty). -/
theorem C10_empty_inner :
    ∀ (T : Type) [Zero T] [Add T] [Mul T] (a b : Matrix T),
      a.cols = 0 → b.rows = 0 →
      ∃ res, a.mulVal b = some res ∧ a.mulRef b = some res ∧
        res.rows = a.rows ∧ res.cols = b.cols ∧ res.Inv ∧
        ∀ i j, i < a.rows → j < b.cols → res.cell i j = 0 := by
  intro T _ _ _ a b hc hr
  have hdim : a.cols = b.rows := by rw [hc, hr]
  have hval := doubleLoop_spec a.rows b.cols (fun _ _ => (0 : T))
    (fun acc2 i j => (acc2.at' i j).bind fun v0 =>
      (loopM (fun val k => (a.at' i k).bind fun x =>
        (b.at' k j).bind fun y => some (val + x * y)) a.cols v0).bind
        fun v => acc2.set i j v)
    (by
      intro acc i j hi hj hrows hcols hinv hcell0
      dsimp only
      rw [acc.at'_eq hinv (by omega) (by omega), hcell0, hc]
      simp only [Option.some_bind, loopM_zero])
  have href := doubleLoop_spec a.rows b.cols (fun _ _ => (0 : T))
    (fun acc2 i j => (loopM (fun val k => (a.at' i k).bind fun x =>
        (b.at' k j).bind fun y => some (val + x * y)) a.cols (0 : T)).bind
        fun v => acc2.set i j v)
    (by
      intro acc i j hi hj hrows hcols hinv hcell0
      dsimp only
      rw [hc]
      simp only [Option.some_bind, loopM_zero])
  obtain ⟨r1, e1, hr1, hc1, hi1, hcell1⟩ := hval
  obtain ⟨r2, e2, hr2, hc2, hi2, hcell2⟩ := href
  have hr12 : r1 = r2 := by
    apply Matrix.eq_of_cells (by omega) (by omega) hi1 hi2
    intro i j hi hj
    rw [hcell1 i j (by omega) (by omega), hcell2 i j (by omega) (by omega)]
  refine ⟨r1, ?_, ?_, hr1, hc1, hi1, hcell1⟩
  · unfold Matrix.mulVal
    rw [if_pos hdim]
    exact e1
  · unfold Matrix.mulRef
    rw [if_pos hdim, hr12]
    exact e2

/-- Witness for C10 at concrete empty-inner matrices. -/
theorem C10_empty_inner_witness :
    ∃ res, (Matrix.fromVec 2 0 ([] : List Int)).mulVal
        (Matrix.fromVec 0 3 []) = some res ∧
      (Matrix.fromVec 2 0 ([] : List Int)).mulRef
        (Matrix.fromVec 0 3 []) = some res ∧
      res.rows = 2 ∧ res.cols = 3 ∧ res.Inv ∧
      ∀ i j, i < 2 → j < 3 → res.cell i j = 0 :=
  C10_empty_inner Int (Matrix.fromVec 2 0 ([] : List Int))
    (Matrix.fromVec 0 3 []) rfl rfl

end RustyNets
